import Mathlib

/-!
# Campus Meal Pick — verification of the recommendation/rating core

Shallow embedding of the Cloudflare Pages Functions endpoints
(`app/functions/api/rate.js`, `preferences.js`, `ratings.js`, `profile.js`),
the shared HMAC helpers (`app/functions/_shared/hmac.js`) and the Supabase
schema (`supabase/schema.sql`), together with spec-modelled definitions for
the parts of the recommendation pipeline (`recommend_daily.py`) that are not
part of the available sources.

Databases are modelled as lists of rows; Supabase `upsert` with an
`onConflict` key is modelled as: update the matching row's provided columns
if one exists, otherwise insert a fresh row with schema defaults for the
absent columns.
-/

namespace CMP

/-! ## Ratings table (`supabase/schema.sql`, table `ratings`)

Columns: `id` (identity), `user_id`, `dish_id`, `rating` (+1 or -1),
`strength` (default 1.0), `menu_date`, with `UNIQUE(user_id, dish_id, menu_date)`. -/

structure RatingRow where
  id        : Nat
  user_id   : String
  dish_id   : Nat
  rating    : Int
  strength  : ℚ
  menu_date : String
  deriving Repr, DecidableEq

/-- A write into `ratings` as issued by the endpoints: the `strength` column
is optional (absent in `rate.js`, present in `preferences.js`); an absent
column keeps the existing value on conflict and takes the schema default
`1.0` on insert. -/
structure RatingWrite where
  user_id   : String
  dish_id   : Nat
  rating    : Int
  strength  : Option ℚ
  menu_date : String
  deriving Repr, DecidableEq

/-- Does row `q` match write `w` on the conflict key `user_id,dish_id,menu_date`? -/
def sameTriple (q : RatingRow) (w : RatingWrite) : Bool :=
  q.user_id == w.user_id && q.dish_id == w.dish_id && q.menu_date == w.menu_date

/-- On-conflict update of one row: the write's provided columns overwrite
the row when the conflict key matches (identity `id` kept, an absent
`strength` column left alone), otherwise the row is untouched. -/
def ratingUpdate (w : RatingWrite) (q : RatingRow) : RatingRow :=
  if sameTriple q w then
    { q with rating := w.rating, strength := w.strength.getD q.strength }
  else q

/-- Fresh insert from a write: absent `strength` takes the schema default 1.0. -/
def newRatingRow (nextId : Nat) (w : RatingWrite) : RatingRow :=
  { id := nextId, user_id := w.user_id, dish_id := w.dish_id,
    rating := w.rating, strength := w.strength.getD 1, menu_date := w.menu_date }

/-- `supabase.from('ratings').upsert(row, { onConflict: 'user_id,dish_id,menu_date' })`:
if a row with the same (user, dish, date) triple exists, its provided columns
are updated in place; otherwise a fresh row is appended with the next
identity value. -/
def ratingsUpsert (rows : List RatingRow) (nextId : Nat) (w : RatingWrite) :
    List RatingRow × Nat :=
  if rows.any (sameTriple · w) then
    (rows.map (ratingUpdate w), nextId)
  else
    (rows ++ [newRatingRow nextId w], nextId + 1)

/-- The `UNIQUE(user_id, dish_id, menu_date)` constraint of the `ratings`
table: no two rows share the conflict-key triple. -/
def tripleUnique (rows : List RatingRow) : Prop :=
  rows.Pairwise fun q₁ q₂ =>
    ¬(q₁.user_id = q₂.user_id ∧ q₁.dish_id = q₂.dish_id ∧ q₁.menu_date = q₂.menu_date)

/-- Select the rows matching a conflict-key triple. -/
def rowsForTriple (rows : List RatingRow) (u : String) (d : Nat) (m : String) :
    List RatingRow :=
  rows.filter fun q => q.user_id == u && q.dish_id == d && q.menu_date == m

/-! ## user_preferences table

A row holds the columns the Pages Functions read and write (the JSONB weight
maps, `initial_ingredients`, `dietary_restrictions` as in
`app/functions/api/preferences.js` and the profile PATCH handler) together
with the schema columns `preference_vector` and `vector_stale`
(`supabase/schema.sql`, default `vector_stale = TRUE`, `preference_vector`
null). Weight maps are association lists tag → weight. -/

structure PrefRow where
  user_id              : String
  cuisine_weights      : List (String × ℚ)
  flavor_weights       : List (String × ℚ)
  method_weights       : List (String × ℚ)
  initial_ingredients  : List String
  dietary_restrictions : List String
  preference_vector    : Option (List ℚ)
  vector_stale         : Bool
  updated_at           : String
  deriving Repr, DecidableEq

/-- A write into `user_preferences`: each field is `some v` when the endpoint
provides that column and `none` when the column is absent from the payload
(absent columns keep their value on conflict, take the schema default on
insert). No endpoint ever provides `preference_vector`. -/
structure PrefWrite where
  user_id              : String
  cuisine_weights      : Option (List (String × ℚ)) := none
  flavor_weights       : Option (List (String × ℚ)) := none
  method_weights       : Option (List (String × ℚ)) := none
  initial_ingredients  : Option (List String) := none
  dietary_restrictions : Option (List String) := none
  vector_stale         : Option Bool := none
  updated_at           : Option String := none
  deriving Repr, DecidableEq

/-- On-conflict update: overwrite exactly the provided columns. -/
def applyPrefWrite (row : PrefRow) (w : PrefWrite) : PrefRow :=
  { row with
    cuisine_weights      := w.cuisine_weights.getD row.cuisine_weights,
    flavor_weights       := w.flavor_weights.getD row.flavor_weights,
    method_weights       := w.method_weights.getD row.method_weights,
    initial_ingredients  := w.initial_ingredients.getD row.initial_ingredients,
    dietary_restrictions := w.dietary_restrictions.getD row.dietary_restrictions,
    vector_stale         := w.vector_stale.getD row.vector_stale,
    updated_at           := w.updated_at.getD row.updated_at }

/-- Fresh insert: absent columns take the `supabase/schema.sql` defaults
(empty arrays, `preference_vector` null, `vector_stale` TRUE). -/
def newPrefRow (w : PrefWrite) : PrefRow :=
  { user_id              := w.user_id,
    cuisine_weights      := w.cuisine_weights.getD [],
    flavor_weights       := w.flavor_weights.getD [],
    method_weights       := w.method_weights.getD [],
    initial_ingredients  := w.initial_ingredients.getD [],
    dietary_restrictions := w.dietary_restrictions.getD [],
    preference_vector    := none,
    vector_stale         := w.vector_stale.getD true,
    updated_at           := w.updated_at.getD "" }

/-- On-conflict update of one `user_preferences` row. -/
def prefUpdate (w : PrefWrite) (r : PrefRow) : PrefRow :=
  if r.user_id == w.user_id then applyPrefWrite r w else r

/-- `supabase.from('user_preferences').upsert(..., { onConflict: 'user_id' })`. -/
def prefsUpsert (rows : List PrefRow) (w : PrefWrite) : List PrefRow :=
  if rows.any (fun r => r.user_id == w.user_id) then
    rows.map (prefUpdate w)
  else
    rows ++ [newPrefRow w]

/-! ## Profiles and daily menus (only the columns the endpoints touch) -/

structure ProfileRow where
  id         : String
  email      : String
  subscribed : Bool
  deriving Repr, DecidableEq

/-- A `daily_menus` row as seen by `rate.js`: its primary key (compared
against the `menu_id` query parameter), the dish it references, and the
joined `dishes.source_name` (`none` models a null join result). -/
structure MenuRow where
  id          : String
  dish_id     : Nat
  source_name : Option String
  deriving Repr, DecidableEq

/-- The persistent state the Pages Functions endpoints read and write. -/
structure DB where
  profiles     : List ProfileRow
  daily_menus  : List MenuRow
  ratings      : List RatingRow
  nextRatingId : Nat
  prefs        : List PrefRow
  deriving Repr, DecidableEq

def prefRowOf (db : DB) (u : String) : Option PrefRow :=
  db.prefs.find? (·.user_id == u)

def prefStale (db : DB) (u : String) : Option Bool :=
  (prefRowOf db u).map (·.vector_stale)

def prefVecOf (db : DB) (u : String) : Option (List ℚ) :=
  (prefRowOf db u).bind (·.preference_vector)

/-- The source's `(url.searchParams.get('email') || '').trim().toLowerCase()`:
strip leading/trailing whitespace, lowercase. (Written over the character
list so that concrete instances evaluate.) -/
def normalizeEmail (s : String) : String :=
  String.mk
    (((s.data.dropWhile (·.isWhitespace)).reverse.dropWhile
        (·.isWhitespace)).reverse.map Char.toLower)

/-! ## HMAC helpers (`app/functions/_shared/hmac.js`)

The raw HMAC-SHA256 primitive (`crypto.subtle.sign`) is an external
collaborator; it is a parameter `mac : String → String → List (Fin 256)`
producing the raw signature bytes (32 of them for SHA-256 — theorems that
need the length carry it as a hypothesis). `hmacSign` performs the hex
encoding the source does (`b.toString(16).padStart(2, '0')` per byte,
joined), `hmacVerify` the length check plus constant-time XOR comparison. -/

/-- Lowercase hex digit, as produced by `Number.prototype.toString(16)`. -/
def hexDigit (n : Nat) : Char :=
  "0123456789abcdef".toList.getD n '0'

/-- One byte, two lowercase hex digits (`toString(16).padStart(2, '0')`). -/
def byteHex (b : Fin 256) : List Char :=
  [hexDigit (b.val / 16), hexDigit (b.val % 16)]

/-- `hmacSign(secret, data)`: hex encoding of the raw signature bytes. -/
def hmacSign (mac : String → String → List (Fin 256)) (secret data : String) :
    String :=
  String.mk ((mac secret data).flatMap byteHex)

/-- The accumulated `diff` of the source's comparison loop:
`diff |= expected.charCodeAt(i) ^ token.charCodeAt(i)`. -/
def xorDiff (a b : List Char) : Nat :=
  (a.zip b).foldl (fun d p => d ||| (p.1.toNat ^^^ p.2.toNat)) 0

/-- `hmacVerify(secret, data, token)`: false on length mismatch, else the
constant-time comparison's `diff === 0`. -/
def hmacVerify (mac : String → String → List (Fin 256))
    (secret data token : String) : Bool :=
  let expected := hmacSign mac secret data
  if expected.length != token.length then false
  else xorDiff expected.toList token.toList == 0

/-! ## The rate endpoint (`app/functions/api/rate.js`, `onRequestGet`) -/

structure RateRequest where
  email   : String
  token   : String
  menu_id : String
  date    : String
  rating  : String
  deriving Repr, DecidableEq

inductive RateResult where
  /-- `redirect('/rate?status=error&msg=...')`. -/
  | errorRedirect (msg : String)
  /-- `redirect('/rate?status=liked|disliked&dish=...')`. -/
  | success (status dish : String)
  deriving Repr, DecidableEq

/-- `onRequestGet` of `rate.js`. `mac`/`secret` feed `hmacVerify`; `now` is
the `new Date().toISOString()` timestamp. Query parameters default to `''`;
the email is trimmed and lowercased. -/
def handleRate (mac : String → String → List (Fin 256)) (secret now : String)
    (db : DB) (req : RateRequest) : RateResult × DB :=
  let email := normalizeEmail req.email
  if email == "" || req.token == "" || req.menu_id == "" || req.date == ""
      || !(["up", "down"].contains req.rating) then
    (.errorRedirect "Invalid rating link", db)
  else if !(hmacVerify mac secret email req.token) then
    (.errorRedirect "Invalid or tampered token", db)
  else
    match db.profiles.find? (fun p => p.email == email) with
    | none => (.errorRedirect "No account found for this email", db)
    | some prof =>
      match db.daily_menus.find? (fun m => m.id == req.menu_id) with
      | none => (.errorRedirect "Dish not found", db)
      | some entry =>
        let dishName := entry.source_name.getD "this dish"
        let ratingVal : Int := if req.rating == "up" then 1 else -1
        let up := ratingsUpsert db.ratings db.nextRatingId
          { user_id := prof.id, dish_id := entry.dish_id, rating := ratingVal,
            strength := none, menu_date := req.date }
        let prefs := prefsUpsert db.prefs
          { user_id := prof.id, vector_stale := some true, updated_at := some now }
        (.success (if req.rating == "up" then "liked" else "disliked") dishName,
         { db with ratings := up.1, nextRatingId := up.2, prefs := prefs })

/-! ## The onboarding preferences endpoint
(`app/functions/api/preferences.js`, `onRequestPost`, authenticated path) -/

/-- The request body after the `|| {}` / `|| []` defaulting. `dish_ratings`
is the list of `{ dish_id, score }` pairs from the onboarding sliders. -/
structure PrefPostBody where
  cuisine_weights      : List (String × ℚ)
  flavor_weights       : List (String × ℚ)
  method_weights       : List (String × ℚ)
  ingredients          : List String
  dietary_restrictions : List String
  dish_ratings         : List (Nat × Int)
  deriving Repr, DecidableEq

/-- `const direction = score >= 6 ? 1 : -1`. -/
def sliderDirection (score : Int) : Int :=
  if 6 ≤ score then 1 else -1

/-- `const strength = Math.abs(score - 5.5) / 4.5`. -/
def sliderStrength (score : Int) : ℚ :=
  |(score : ℚ) - 5.5| / 4.5

/-- `onRequestPost` of `preferences.js` for an authenticated `userId`:
upsert the preference row (all payload columns, `vector_stale: true`), then
upsert one rating row per slider with the computed direction/strength and
`menu_date = today`. -/
def handlePreferencesPost (now today userId : String)
    (db : DB) (body : PrefPostBody) : DB :=
  let w : PrefWrite :=
    { user_id              := userId,
      cuisine_weights      := some body.cuisine_weights,
      flavor_weights       := some body.flavor_weights,
      method_weights       := some body.method_weights,
      initial_ingredients  := some body.ingredients,
      dietary_restrictions := some body.dietary_restrictions,
      vector_stale         := some true,
      updated_at           := some now }
  let db1 := { db with prefs := prefsUpsert db.prefs w }
  if body.dish_ratings.isEmpty then db1
  else
    let up := body.dish_ratings.foldl
      (fun (acc : List RatingRow × Nat) dr =>
        ratingsUpsert acc.1 acc.2
          { user_id := userId, dish_id := dr.1, rating := sliderDirection dr.2,
            strength := some (sliderStrength dr.2), menu_date := today })
      (db1.ratings, db1.nextRatingId)
    { db1 with ratings := up.1, nextRatingId := up.2 }

/-! ## The profile PATCH endpoint (dashboard edits, `onRequestPatch`) -/

structure ProfilePatchBody where
  subscribed           : Option Bool := none
  cuisine_weights      : Option (List (String × ℚ)) := none
  flavor_weights       : Option (List (String × ℚ)) := none
  method_weights       : Option (List (String × ℚ)) := none
  dietary_restrictions : Option (List String) := none
  deriving Repr, DecidableEq

/-- `Object.keys(prefUpdate).length > 0`: some field of
`['cuisine_weights', 'flavor_weights', 'method_weights', 'dietary_restrictions']`
was sent. -/
def patchHasPrefField (b : ProfilePatchBody) : Bool :=
  b.cuisine_weights.isSome || b.flavor_weights.isSome
    || b.method_weights.isSome || b.dietary_restrictions.isSome

/-- `onRequestPatch` of the profile endpoint for an authenticated `userId`:
update `profiles.subscribed` when provided, then — only when some
weight/restriction field was sent — upsert the provided preference fields
together with `vector_stale: true`. -/
def handleProfilePatch (now userId : String) (db : DB)
    (body : ProfilePatchBody) : DB :=
  let db1 := match body.subscribed with
    | some s =>
      { db with profiles := db.profiles.map fun p =>
          if p.id == userId then { p with subscribed := s } else p }
    | none => db
  if patchHasPrefField body then
    let w : PrefWrite :=
      { user_id              := userId,
        cuisine_weights      := body.cuisine_weights,
        flavor_weights       := body.flavor_weights,
        method_weights       := body.method_weights,
        dietary_restrictions := body.dietary_restrictions,
        vector_stale         := some true,
        updated_at           := some now }
    { db1 with prefs := prefsUpsert db1.prefs w }
  else db1

/-! ## The ratings endpoint (`app/functions/api/ratings.js`, DELETE branch) -/

inductive DeleteResult where
  | badRequest   -- 400: rating_id missing/unparseable/zero
  | notFound     -- 404: no rating with that id
  | forbidden    -- 403: rating belongs to another user
  | ok
  deriving Repr, DecidableEq

/-- The DELETE branch of `ratings.js` for an authenticated `userId`.
`ratingIdParam` is `parseInt(url.searchParams.get('rating_id') || '', 10)`
modelled as `none` for NaN; the source's `!ratingId` also rejects `0`. -/
def handleRatingsDelete (userId : String) (db : DB)
    (ratingIdParam : Option Int) : DeleteResult × DB :=
  match ratingIdParam with
  | none => (.badRequest, db)
  | some rid =>
    if rid == 0 then (.badRequest, db)
    else
      match db.ratings.find? (fun q => (q.id : Int) == rid) with
      | none => (.notFound, db)
      | some q =>
        if q.user_id != userId then (.forbidden, db)
        else (.ok, { db with ratings :=
          (db.ratings.filter fun q' => (q'.id : Int) != rid) })

/-! ## The unsubscribe endpoint (`app/functions/api/unsubscribe.js`) —
included so that "every state-changing operation in the codebase" can be
quantified over; it only touches `profiles.subscribed`. -/

def handleUnsubscribe (mac : String → String → List (Fin 256))
    (secret : String) (db : DB) (email token : String) : DB :=
  let e := normalizeEmail email
  if e == "" || token == "" then db
  else if !(hmacVerify mac secret e token) then db
  else
    { db with profiles := db.profiles.map fun p =>
        if p.email == e then { p with subscribed := false } else p }

/-! ## Preference Vector Builder — modelled from the spec

`recommend_daily.py`, which implements the Preference Vector Builder,
Hybrid Scorer and Dietary Filter, is not among the available sources; the
definitions below are modelled from the spec. Vectors are lists of
rationals; the toy scenario uses dimension 2. -/

/-- Componentwise vector sum (vectors of equal dimension). -/
def vecAdd (v w : List ℚ) : List ℚ := List.zipWith (· + ·) v w

/-- Scalar multiple of a vector. -/
def vecScale (c : ℚ) (v : List ℚ) : List ℚ := v.map (c * ·)

/-- Modelled from the spec: `decay = 0.95`. -/
def decay : ℚ := 0.95

/-- A rating as the Preference Vector Builder consumes it: direction
(+1 or -1), strength in (0, 1], and the rated dish's embedding. The list
handed to the builder is ordered by recency, most recent first. -/
structure BuilderRating where
  dir      : Int
  strength : ℚ
  emb      : List ℚ
  deriving Repr, DecidableEq

/-- The contribution of the rating at zero-based recency rank `i`:
`direction_i × strength_i × decay^i × embedding_i`. -/
def ratingContrib (i : Nat) (r : BuilderRating) : List ℚ :=
  vecScale ((r.dir : ℚ) * r.strength * decay ^ i) r.emb

/-- Modelled from the spec: the Preference Vector Builder of
`recommend_daily.py` (absent from the sources), accumulating
`Σ_i direction_i × strength_i × decay^i × embedding_i` on top of
`base_vector(initial_ingredients)`; `i` is the zero-based rank in recency
order. -/
def prefVectorAux : Nat → List BuilderRating → List ℚ → List ℚ
  | _, [], acc => acc
  | i, r :: rs, acc => prefVectorAux (i + 1) rs (vecAdd acc (ratingContrib i r))

/-- Modelled from the spec: `pref = Σ over ratings_i of
(direction_i × strength_i × decay^i × embedding_i) + base_vector(...)`. -/
def prefVector (ratings : List BuilderRating) (base : List ℚ) : List ℚ :=
  prefVectorAux 0 ratings base

instance : Inhabited BuilderRating := ⟨⟨0, 0, []⟩⟩

/-- The spec's formula written independently as a per-coordinate sum:
coordinate `j` of the result is `base_j + Σ_{i < n} dir_i × strength_i ×
decay^i × emb_i[j]`. Used to check that the accumulating builder computes
exactly the spec's sum. -/
def prefVectorSpec (ratings : List BuilderRating) (base : List ℚ) : List ℚ :=
  (List.range base.length).map fun j =>
    base.getD j 0 + ∑ i ∈ Finset.range ratings.length,
      (((ratings.getD i default).dir : ℚ) * (ratings.getD i default).strength
        * decay ^ i * (ratings.getD i default).emb.getD j 0)

/-! ## Hybrid Scorer weight table — modelled from the spec -/

/-- Modelled from the spec: the weight quadruple
`(w_cos, w_flavor, w_method, w_cuisine)` of the Hybrid Scorer in
`recommend_daily.py` (absent from the sources), selected by the user's
total rating count `n`: rows 0–14, 15–39 and ≥40 of the spec's table. -/
def hybridWeights (n : Nat) : ℚ × ℚ × ℚ × ℚ :=
  if n ≤ 14 then (0.40, 0.20, 0.15, 0.25)
  else if n ≤ 39 then (0.60, 0.13, 0.09, 0.18)
  else (0.75, 0.08, 0.07, 0.10)

/-! ## Dietary Filter — modelled from the spec -/

/-- Modelled from the spec: the Dietary Filter of `recommend_daily.py`
(absent from the sources). `contra r a` is the fixed contradiction table
("restriction `r` is contradicted by attribute `a`"); a dish is ineligible
iff its `dietary_attrs` set is non-empty AND contains a tag contradicting
one of the user's restrictions. -/
def dietaryEligible (contra : String → String → Bool)
    (restrictions attrs : List String) : Bool :=
  !(!attrs.isEmpty && attrs.any fun a => restrictions.any fun r => contra r a)

/-- The spec's example rows of the contradiction table: restriction
"vegan" is contradicted by attribute "contains-dairy". -/
def exampleContra (r a : String) : Bool :=
  r == "vegan" && a == "contains-dairy"

/-! # Helper lemmas -/

lemma ratingUpdate_user_id (w : RatingWrite) (q : RatingRow) :
    (ratingUpdate w q).user_id = q.user_id := by
  unfold ratingUpdate; split <;> rfl

lemma ratingUpdate_dish_id (w : RatingWrite) (q : RatingRow) :
    (ratingUpdate w q).dish_id = q.dish_id := by
  unfold ratingUpdate; split <;> rfl

lemma ratingUpdate_menu_date (w : RatingWrite) (q : RatingRow) :
    (ratingUpdate w q).menu_date = q.menu_date := by
  unfold ratingUpdate; split <;> rfl

lemma sameTriple_ratingUpdate (w w' : RatingWrite) (q : RatingRow) :
    sameTriple (ratingUpdate w q) w' = sameTriple q w' := by
  simp [sameTriple, ratingUpdate_user_id, ratingUpdate_dish_id,
    ratingUpdate_menu_date]

lemma sameTriple_newRatingRow (nextId : Nat) (w : RatingWrite) :
    sameTriple (newRatingRow nextId w) w = true := by
  simp [sameTriple, newRatingRow]

lemma lor_eq_zero (a b : ℕ) : a ||| b = 0 ↔ a = 0 ∧ b = 0 := by
  constructor
  · intro h
    constructor
    · refine Nat.eq_of_testBit_eq fun i => ?_
      have := congrArg (fun n => Nat.testBit n i) h
      simp only [Nat.testBit_or, Nat.zero_testBit, Bool.or_eq_false_iff] at this
      simp [this.1]
    · refine Nat.eq_of_testBit_eq fun i => ?_
      have := congrArg (fun n => Nat.testBit n i) h
      simp only [Nat.testBit_or, Nat.zero_testBit, Bool.or_eq_false_iff] at this
      simp [this.2]
  · rintro ⟨rfl, rfl⟩; rfl

lemma char_toNat_inj {a b : Char} (h : a.toNat = b.toNat) : a = b := by
  have := congrArg Char.ofNat h
  rwa [Char.ofNat_toNat, Char.ofNat_toNat] at this

lemma xorDiff_aux (a b : List Char) (d : ℕ) :
    ((a.zip b).foldl (fun d p => d ||| (p.1.toNat ^^^ p.2.toNat)) d = 0) ↔
      (d = 0 ∧ ∀ p ∈ a.zip b, p.1 = p.2) := by
  induction a generalizing b d with
  | nil => simp
  | cons c cs ih =>
    cases b with
    | nil => simp
    | cons c' b' =>
      simp only [List.zip_cons_cons, List.foldl_cons, List.mem_cons]
      rw [ih]
      constructor
      · rintro ⟨h0, hall⟩
        rw [lor_eq_zero] at h0
        refine ⟨h0.1, fun p hp => ?_⟩
        rcases hp with rfl | hp
        · exact char_toNat_inj (Nat.xor_eq_zero.mp h0.2)
        · exact hall p hp
      · rintro ⟨rfl, hall⟩
        have hcc : c = c' := hall (c, c') (Or.inl rfl)
        subst hcc
        exact ⟨by simp [lor_eq_zero], fun p hp => hall p (Or.inr hp)⟩

lemma zip_self_eq_map (a : List Char) : a.zip a = a.map fun c => (c, c) := by
  induction a with
  | nil => rfl
  | cons c cs ih => simp [ih]

lemma eq_of_zip_forall_eq :
    ∀ {a b : List Char}, a.length = b.length →
      (∀ p ∈ a.zip b, p.1 = p.2) → a = b := by
  intro a
  induction a with
  | nil =>
    intro b h _
    cases b
    · rfl
    · simp at h
  | cons c cs ih =>
    intro b h hall
    cases b with
    | nil => simp at h
    | cons c' b' =>
      have hc : c = c' := hall (c, c') (by simp)
      subst hc
      have : cs = b' := ih (by simpa using h) fun p hp => hall p (by simp [hp])
      rw [this]

lemma xorDiff_eq_zero (a b : List Char) (hlen : a.length = b.length) :
    xorDiff a b = 0 ↔ a = b := by
  unfold xorDiff
  rw [xorDiff_aux]
  constructor
  · intro h
    exact eq_of_zip_forall_eq hlen h.2
  · rintro rfl
    refine ⟨rfl, fun p hp => ?_⟩
    rw [zip_self_eq_map] at hp
    obtain ⟨c, _, rfl⟩ := List.mem_map.mp hp
    rfl

lemma hmacSign_length (mac : String → String → List (Fin 256))
    (secret data : String) :
    (hmacSign mac secret data).length = 2 * (mac secret data).length := by
  unfold hmacSign
  show ((mac secret data).flatMap byteHex).length = _
  induction mac secret data with
  | nil => rfl
  | cons b bs ih => simp_all [byteHex, Nat.mul_succ]

lemma hexDigit_mem (n : ℕ) (h : n < 16) :
    hexDigit n ∈ "0123456789abcdef".toList := by
  unfold hexDigit
  interval_cases n <;> decide

lemma hmacSign_toList (mac : String → String → List (Fin 256))
    (secret data : String) :
    (hmacSign mac secret data).toList = (mac secret data).flatMap byteHex := rfl

/-- Primary-key property of the `ratings.id` identity column. -/
def idUnique (rows : List RatingRow) : Prop :=
  (rows.map (·.id)).Nodup

lemma length_filter_id_split (rows : List RatingRow) (rid : Int) :
    (rows.filter fun q => (q.id : Int) != rid).length
      + (rows.filter fun q => (q.id : Int) == rid).length = rows.length := by
  induction rows with
  | nil => rfl
  | cons q qs ih =>
    by_cases h : (q.id : Int) = rid
    · rw [List.filter_cons_of_neg (by simp [h]),
        List.filter_cons_of_pos (by simp [h])]
      simp only [List.length_cons]
      omega
    · rw [List.filter_cons_of_pos (by simp [h]),
        List.filter_cons_of_neg (by simp [h])]
      simp only [List.length_cons]
      omega

lemma filter_id_eq_singleton (rows : List RatingRow) (rid : Int)
    (hnd : idUnique rows) (q : RatingRow) (hq : q ∈ rows)
    (hid : (q.id : Int) = rid) :
    (rows.filter fun q' => (q'.id : Int) == rid).length = 1 := by
  induction rows with
  | nil => cases hq
  | cons r rs ih =>
    unfold idUnique at hnd
    rw [List.map_cons, List.nodup_cons] at hnd
    by_cases hr : (r.id : Int) = rid
    · have hrs : ∀ x ∈ rs, ((x.id : Int) == rid) = false := by
        intro x hx
        have : x.id ≠ r.id := fun he =>
          hnd.1 (List.mem_map.mpr ⟨x, hx, he⟩)
        simp only [beq_eq_false_iff_ne, ne_eq]
        intro hc
        exact this (by omega)
      rw [List.filter_cons_of_pos (by simp [hr])]
      rw [List.filter_eq_nil_iff.mpr fun x hx => by simp [hrs x hx]]
      rfl
    · have hqr : q ∈ rs := by
        rcases List.mem_cons.mp hq with rfl | h
        · exact absurd hid hr
        · exact h
      rw [List.filter_cons_of_neg (by simp [hr])]
      exact ih hnd.2 hqr

lemma applyPrefWrite_user_id (r : PrefRow) (w : PrefWrite) :
    (applyPrefWrite r w).user_id = r.user_id := rfl

lemma applyPrefWrite_vec (r : PrefRow) (w : PrefWrite) :
    (applyPrefWrite r w).preference_vector = r.preference_vector := rfl

lemma prefUpdate_user_id (w : PrefWrite) (r : PrefRow) :
    (prefUpdate w r).user_id = r.user_id := by
  unfold prefUpdate; split <;> rfl

lemma prefUpdate_vec (w : PrefWrite) (r : PrefRow) :
    (prefUpdate w r).preference_vector = r.preference_vector := by
  unfold prefUpdate; split <;> rfl

lemma find?_map_prefUpdate_self (rows : List PrefRow) (w : PrefWrite) :
    ((rows.map (prefUpdate w)).find? (·.user_id == w.user_id))
      = (rows.find? (·.user_id == w.user_id)).map (applyPrefWrite · w) := by
  induction rows with
  | nil => rfl
  | cons r rs ih =>
    by_cases hr : r.user_id = w.user_id
    · rw [List.map_cons,
        List.find?_cons_of_pos _ (by simp [prefUpdate_user_id, hr]),
        List.find?_cons_of_pos _ (by simp [hr])]
      simp [prefUpdate, hr]
    · rw [List.map_cons,
        List.find?_cons_of_neg _ (by simp [prefUpdate_user_id, hr]),
        List.find?_cons_of_neg _ (by simp [hr])]
      exact ih

lemma find?_map_prefUpdate_other (rows : List PrefRow) (w : PrefWrite)
    (u : String) (hu : u ≠ w.user_id) :
    ((rows.map (prefUpdate w)).find? (·.user_id == u))
      = rows.find? (·.user_id == u) := by
  induction rows with
  | nil => rfl
  | cons r rs ih =>
    by_cases hr : r.user_id = u
    · rw [List.map_cons,
        List.find?_cons_of_pos _ (by simp [prefUpdate_user_id, hr]),
        List.find?_cons_of_pos _ (by simp [hr])]
      have : prefUpdate w r = r := by
        unfold prefUpdate
        rw [if_neg (by simp [hr, hu])]
      rw [this]
    · rw [List.map_cons,
        List.find?_cons_of_neg _ (by simp [prefUpdate_user_id, hr]),
        List.find?_cons_of_neg _ (by simp [hr])]
      exact ih

lemma find?_append_single (rows : List PrefRow) (r₀ : PrefRow)
    (p : PrefRow → Bool) :
    (rows ++ [r₀]).find? p
      = ((rows.find? p).elim (if p r₀ then some r₀ else none) some) := by
  induction rows with
  | nil => cases hp : p r₀ <;> simp [List.find?, hp]
  | cons r rs ih =>
    by_cases hr : p r = true
    · rw [List.cons_append, List.find?_cons_of_pos _ hr,
        List.find?_cons_of_pos _ hr]
      rfl
    · rw [List.cons_append,
        List.find?_cons_of_neg _ (by simpa using hr),
        List.find?_cons_of_neg _ (by simpa using hr)]
      exact ih

lemma any_eq_false_find?_none (rows : List PrefRow) (w : PrefWrite)
    (hany : rows.any (fun r => r.user_id == w.user_id) = false) :
    rows.find? (·.user_id == w.user_id) = none := by
  rw [List.find?_eq_none]
  intro r hr hc
  have : rows.any (fun r => r.user_id == w.user_id) = true :=
    List.any_eq_true.mpr ⟨r, hr, hc⟩
  rw [this] at hany
  cases hany

/-- The row an upsert leaves for the written user: the updated existing row,
or a fresh row with defaults. -/
lemma prefsUpsert_find_self (rows : List PrefRow) (w : PrefWrite) :
    (prefsUpsert rows w).find? (·.user_id == w.user_id)
      = some ((rows.find? (·.user_id == w.user_id)).elim (newPrefRow w)
          (applyPrefWrite · w)) := by
  unfold prefsUpsert
  split
  case isTrue hany =>
    rw [find?_map_prefUpdate_self]
    obtain ⟨r, hr, hru⟩ := List.any_eq_true.mp hany
    have : rows.find? (·.user_id == w.user_id) ≠ none := by
      rw [ne_eq, List.find?_eq_none]
      push_neg
      exact ⟨r, hr, hru⟩
    obtain ⟨r', hr'⟩ := Option.ne_none_iff_exists'.mp this
    rw [hr']
    rfl
  case isFalse hany =>
    rw [find?_append_single,
      any_eq_false_find?_none rows w (by simpa using hany)]
    have : ((newPrefRow w).user_id == w.user_id) = true := by
      simp [newPrefRow]
    simp [this]

/-- Rows of other users are untouched by an upsert. -/
lemma prefsUpsert_find_other (rows : List PrefRow) (w : PrefWrite)
    (u : String) (hu : u ≠ w.user_id) :
    (prefsUpsert rows w).find? (·.user_id == u)
      = rows.find? (·.user_id == u) := by
  unfold prefsUpsert
  split
  · exact find?_map_prefUpdate_other rows w u hu
  · rw [find?_append_single]
    have : ((newPrefRow w).user_id == u) = false := by
      simp [newPrefRow]
      exact fun h => absurd h.symm hu
    cases hf : rows.find? (·.user_id == u) <;> simp [hf, this]

/-- No upsert ever writes `preference_vector`. -/
lemma prefsUpsert_vec (rows : List PrefRow) (w : PrefWrite) (u : String) :
    ((prefsUpsert rows w).find? (·.user_id == u)).bind (·.preference_vector)
      = (rows.find? (·.user_id == u)).bind (·.preference_vector) := by
  by_cases hu : u = w.user_id
  · subst hu
    rw [prefsUpsert_find_self]
    cases hf : rows.find? (·.user_id == w.user_id) with
    | none => simp [hf, newPrefRow]
    | some r => simp [hf, applyPrefWrite_vec]
  · rw [prefsUpsert_find_other rows w u hu]

/-- An upsert carrying `vector_stale: true` leaves the written user's row
stale and leaves every other row's staleness untouched. -/
lemma prefsUpsert_stale (rows : List PrefRow) (w : PrefWrite)
    (hw : w.vector_stale = some true) :
    (((prefsUpsert rows w).find? (·.user_id == w.user_id)).map
        (·.vector_stale) = some true) ∧
    (∀ u, ((prefsUpsert rows w).find? (·.user_id == u)).map (·.vector_stale)
        = some false →
      (rows.find? (·.user_id == u)).map (·.vector_stale) = some false) := by
  constructor
  · rw [prefsUpsert_find_self]
    cases hf : rows.find? (·.user_id == w.user_id) with
    | none => simp [hf, newPrefRow, hw]
    | some r => simp [hf, applyPrefWrite, hw]
  · intro u hfalse
    by_cases hu : u = w.user_id
    · subst hu
      rw [prefsUpsert_find_self] at hfalse
      cases hf : rows.find? (·.user_id == w.user_id) with
      | none => rw [hf] at hfalse; simp [newPrefRow, hw] at hfalse
      | some r => rw [hf] at hfalse; simp [applyPrefWrite, hw] at hfalse
    · rwa [prefsUpsert_find_other rows w u hu] at hfalse

lemma handleRate_prefs_cases (mac : String → String → List (Fin 256))
    (secret now : String) (db : DB) (req : RateRequest) :
    (handleRate mac secret now db req).2.prefs = db.prefs ∨
    ∃ uid, (handleRate mac secret now db req).2.prefs
      = prefsUpsert db.prefs
          { user_id := uid, vector_stale := some true,
            updated_at := some now } := by
  unfold handleRate
  dsimp only
  split
  · exact Or.inl rfl
  split
  · exact Or.inl rfl
  split
  · exact Or.inl rfl
  split
  · exact Or.inl rfl
  exact Or.inr ⟨_, rfl⟩

lemma handlePreferencesPost_prefs (now today userId : String) (db : DB)
    (body : PrefPostBody) :
    ∃ w : PrefWrite,
      (handlePreferencesPost now today userId db body).prefs
        = prefsUpsert db.prefs w ∧
      w.user_id = userId ∧ w.vector_stale = some true := by
  unfold handlePreferencesPost
  dsimp only
  split
  · exact ⟨_, rfl, rfl, rfl⟩
  · exact ⟨_, rfl, rfl, rfl⟩

lemma handleProfilePatch_prefs (now userId : String) (db : DB)
    (body : ProfilePatchBody) :
    (handleProfilePatch now userId db body).prefs = db.prefs ∨
    ∃ w : PrefWrite,
      (handleProfilePatch now userId db body).prefs
        = prefsUpsert db.prefs w ∧
      w.user_id = userId ∧ w.vector_stale = some true := by
  unfold handleProfilePatch
  dsimp only
  cases body.subscribed <;> dsimp only <;> split <;>
    first
      | exact Or.inl rfl
      | exact Or.inr ⟨_, rfl, rfl, rfl⟩

lemma handleProfilePatch_prefs_of_field (now userId : String) (db : DB)
    (body : ProfilePatchBody) (hf : patchHasPrefField body = true) :
    ∃ w : PrefWrite,
      (handleProfilePatch now userId db body).prefs
        = prefsUpsert db.prefs w ∧
      w.user_id = userId ∧ w.vector_stale = some true := by
  unfold handleProfilePatch
  dsimp only
  cases body.subscribed <;> dsimp only <;> rw [if_pos hf] <;>
    exact ⟨_, rfl, rfl, rfl⟩

lemma handleRatingsDelete_prefs (userId : String) (db : DB)
    (p : Option Int) :
    (handleRatingsDelete userId db p).2.prefs = db.prefs := by
  unfold handleRatingsDelete
  rcases p with _ | rid
  · rfl
  · dsimp only
    split
    · rfl
    split
    · rfl
    split
    · rfl
    · rfl

lemma handleUnsubscribe_prefs (mac : String → String → List (Fin 256))
    (secret : String) (db : DB) (email token : String) :
    (handleUnsubscribe mac secret db email token).prefs = db.prefs := by
  unfold handleUnsubscribe
  dsimp only
  split
  · rfl
  split
  · rfl
  · rfl

lemma ratingsUpsert_mem (rows : List RatingRow) (nextId : Nat)
    (w : RatingWrite) :
    ∃ q ∈ (ratingsUpsert rows nextId w).1,
      sameTriple q w = true ∧ q.rating = w.rating := by
  unfold ratingsUpsert
  split
  case isTrue hany =>
    obtain ⟨q₀, hq₀, hs⟩ := List.any_eq_true.mp hany
    have hs' : sameTriple q₀ w = true := by simpa using hs
    refine ⟨ratingUpdate w q₀, List.mem_map_of_mem _ hq₀, ?_, ?_⟩
    · rw [sameTriple_ratingUpdate]; exact hs'
    · simp [ratingUpdate, hs']
  case isFalse =>
    exact ⟨newRatingRow nextId w, by simp, sameTriple_newRatingRow _ _, rfl⟩

lemma length_vecAdd (a b : List ℚ) :
    (vecAdd a b).length = min a.length b.length := by
  simp [vecAdd]

lemma getD_vecAdd (a b : List ℚ) (j : Nat) (ha : j < a.length)
    (hb : j < b.length) :
    (vecAdd a b).getD j 0 = a.getD j 0 + b.getD j 0 := by
  unfold vecAdd
  rw [List.getD_eq_getElem _ _ (by simp [List.length_zipWith]; omega),
    List.getD_eq_getElem _ _ ha, List.getD_eq_getElem _ _ hb,
    List.getElem_zipWith]

lemma length_ratingContrib (i : Nat) (r : BuilderRating) :
    (ratingContrib i r).length = r.emb.length := by
  simp [ratingContrib, vecScale]

lemma getD_ratingContrib (i : Nat) (r : BuilderRating) (j : Nat)
    (h : j < r.emb.length) :
    (ratingContrib i r).getD j 0
      = (r.dir : ℚ) * r.strength * decay ^ i * r.emb.getD j 0 := by
  unfold ratingContrib vecScale
  rw [List.getD_eq_getElem _ _ (by simpa using h),
    List.getD_eq_getElem _ _ h, List.getElem_map]

lemma range_map_getD (l : List ℚ) :
    (List.range l.length).map (fun j => l.getD j 0) = l := by
  apply List.ext_getElem
  · simp
  · intro j h1 h2
    simp [List.getD_eq_getElem l 0 h2, List.getElem?_eq_getElem h2]

lemma prefVectorAux_eq (rs : List BuilderRating) :
    ∀ (i : Nat) (acc : List ℚ),
      (∀ r ∈ rs, r.emb.length = acc.length) →
      prefVectorAux i rs acc
        = (List.range acc.length).map fun j =>
            acc.getD j 0 + ∑ k ∈ Finset.range rs.length,
              (((rs.getD k default).dir : ℚ) * (rs.getD k default).strength
                * decay ^ (i + k) * (rs.getD k default).emb.getD j 0) := by
  induction rs with
  | nil =>
    intro i acc _
    simp only [prefVectorAux, List.length_nil, Finset.range_zero,
      Finset.sum_empty, add_zero]
    exact (range_map_getD acc).symm
  | cons r rs ih =>
    intro i acc hlen
    have hre : r.emb.length = acc.length := hlen r (by simp)
    have hlenAdd : (vecAdd acc (ratingContrib i r)).length = acc.length := by
      rw [length_vecAdd, length_ratingContrib, hre, Nat.min_self]
    have hlen' : ∀ r' ∈ rs,
        r'.emb.length = (vecAdd acc (ratingContrib i r)).length := by
      intro r' hr'
      rw [hlenAdd, hlen r' (by simp [hr'])]
    rw [show prefVectorAux i (r :: rs) acc
        = prefVectorAux (i + 1) rs (vecAdd acc (ratingContrib i r)) from rfl]
    rw [ih (i + 1) _ hlen']
    rw [hlenAdd]
    apply List.map_congr_left
    intro j hj
    rw [List.mem_range] at hj
    rw [getD_vecAdd acc _ j hj (by rw [length_ratingContrib, hre]; exact hj)]
    rw [getD_ratingContrib i r j (by rw [hre]; exact hj)]
    rw [List.length_cons, Finset.sum_range_succ']
    simp only [List.getD_cons_zero, List.getD_cons_succ, Nat.add_zero]
    have hexp : ∀ k : ℕ, i + (k + 1) = (i + 1) + k := by omega
    have hsum : (∑ k ∈ Finset.range rs.length,
        (((rs.getD k default).dir : ℚ) * (rs.getD k default).strength
          * decay ^ (i + (k + 1)) * (rs.getD k default).emb.getD j 0))
        = ∑ k ∈ Finset.range rs.length,
        (((rs.getD k default).dir : ℚ) * (rs.getD k default).strength
          * decay ^ ((i + 1) + k) * (rs.getD k default).emb.getD j 0) :=
      Finset.sum_congr rfl fun k _ => by rw [hexp k]
    rw [hsum]
    ring

/-! # Theorems -/

/-- C3: for every onboarding dish rating with an integer slider score in
[1, 10], the stored row has direction +1 if `score >= 6` and -1 otherwise,
and strength `|score - 5.5| / 4.5`, which lies in (0, 1]; a rating created
by a binary thumb link (a strength-less write, as `rate.js` issues) is
inserted with the schema default strength 1.0. -/
theorem onboarding_rating_direction_strength (score : Int)
    (h1 : 1 ≤ score) (h10 : score ≤ 10) :
    (6 ≤ score → sliderDirection score = 1) ∧
    (score < 6 → sliderDirection score = -1) ∧
    sliderStrength score = |(score : ℚ) - 5.5| / 4.5 ∧
    0 < sliderStrength score ∧ sliderStrength score ≤ 1 ∧
    (∀ (rows : List RatingRow) (nextId : Nat) (w : RatingWrite),
      w.strength = none → rows.any (sameTriple · w) = false →
      ∃ q, (ratingsUpsert rows nextId w).1 = rows ++ [q] ∧ q.strength = 1) := by
  refine ⟨fun h => by simp [sliderDirection, h], fun h => ?_, rfl, ?_, ?_, ?_⟩
  · simp only [sliderDirection, if_neg (by omega : ¬ 6 ≤ score)]
  · have : score ≠ 5 ∨ score ≠ 6 := by omega
    unfold sliderStrength
    interval_cases score <;> norm_num
  · have hq1 : (1 : ℚ) ≤ (score : ℚ) := by exact_mod_cast h1
    have hq10 : ((score : ℚ)) ≤ 10 := by exact_mod_cast h10
    unfold sliderStrength
    rw [div_le_one (by norm_num), abs_le]
    constructor <;> linarith
  · intro rows nextId w hs hany
    refine ⟨newRatingRow nextId w, ?_, ?_⟩
    · unfold ratingsUpsert
      rw [if_neg (by simp [hany])]
    · simp [newRatingRow, hs]

/-- Witness for `onboarding_rating_direction_strength` at score 7. -/
theorem onboarding_rating_direction_strength_witness :
    (6 ≤ (7 : Int) → sliderDirection 7 = 1) ∧
    ((7 : Int) < 6 → sliderDirection 7 = -1) ∧
    sliderStrength 7 = |((7 : Int) : ℚ) - 5.5| / 4.5 ∧
    0 < sliderStrength 7 ∧ sliderStrength 7 ≤ 1 ∧
    (∀ (rows : List RatingRow) (nextId : Nat) (w : RatingWrite),
      w.strength = none → rows.any (sameTriple · w) = false →
      ∃ q, (ratingsUpsert rows nextId w).1 = rows ++ [q] ∧ q.strength = 1) :=
  onboarding_rating_direction_strength 7 (by norm_num) (by norm_num)

/-- C1: every rating event (a valid, verified GET /api/rate request) and
every preference edit (POST /api/preferences, or a PATCH carrying one of
the weight/restriction fields) leaves `vector_stale = true` in the user's
`user_preferences` row, and no state-changing operation of the codebase
ever turns `vector_stale` to false (rows that read false after an
operation already read false before it). -/
theorem vector_stale_set_on_rating_and_pref_edits :
    (∀ (mac : String → String → List (Fin 256)) (secret now : String)
       (db : DB) (req : RateRequest) (prof : ProfileRow) (entry : MenuRow),
      normalizeEmail req.email ≠ "" → req.token ≠ "" → req.menu_id ≠ "" →
      req.date ≠ "" → (req.rating = "up" ∨ req.rating = "down") →
      hmacVerify mac secret (normalizeEmail req.email) req.token = true →
      db.profiles.find? (fun p => p.email == normalizeEmail req.email)
        = some prof →
      db.daily_menus.find? (fun m => m.id == req.menu_id) = some entry →
      prefStale (handleRate mac secret now db req).2 prof.id = some true) ∧
    (∀ (now today userId : String) (db : DB) (body : PrefPostBody),
      prefStale (handlePreferencesPost now today userId db body) userId
        = some true) ∧
    (∀ (now userId : String) (db : DB) (body : ProfilePatchBody),
      patchHasPrefField body = true →
      prefStale (handleProfilePatch now userId db body) userId = some true) ∧
    (∀ (mac : String → String → List (Fin 256)) (secret now : String)
       (db : DB) (req : RateRequest) (u : String),
      prefStale (handleRate mac secret now db req).2 u = some false →
      prefStale db u = some false) ∧
    (∀ (now today userId : String) (db : DB) (body : PrefPostBody)
       (u : String),
      prefStale (handlePreferencesPost now today userId db body) u
        = some false →
      prefStale db u = some false) ∧
    (∀ (now userId : String) (db : DB) (body : ProfilePatchBody)
       (u : String),
      prefStale (handleProfilePatch now userId db body) u = some false →
      prefStale db u = some false) ∧
    (∀ (userId : String) (db : DB) (p : Option Int) (u : String),
      prefStale (handleRatingsDelete userId db p).2 u = prefStale db u) ∧
    (∀ (mac : String → String → List (Fin 256)) (secret : String) (db : DB)
       (email token u : String),
      prefStale (handleUnsubscribe mac secret db email token) u
        = prefStale db u) := by
  refine ⟨?_, ?_, ?_, ?_, ?_, ?_, ?_, ?_⟩
  · intro mac secret now db req prof entry he ht hm hd hr hv hprof hentry
    unfold handleRate
    dsimp only
    rw [if_neg (by
      simp only [Bool.or_eq_true, beq_iff_eq, Bool.not_eq_true', not_or]
      simp [he, ht, hm, hd]
      exact fun h => hr.resolve_left h)]
    rw [if_neg (by simp [hv])]
    rw [hprof, hentry]
    dsimp only
    simp only [prefStale, prefRowOf]
    exact (prefsUpsert_stale db.prefs
      { user_id := prof.id, vector_stale := some true,
        updated_at := some now } rfl).1
  · intro now today userId db body
    obtain ⟨w, hw, hwu, hws⟩ := handlePreferencesPost_prefs now today userId db body
    simp only [prefStale, prefRowOf, hw]
    subst hwu
    exact (prefsUpsert_stale db.prefs w hws).1
  · intro now userId db body hf
    obtain ⟨w, hw, hwu, hws⟩ :=
      handleProfilePatch_prefs_of_field now userId db body hf
    simp only [prefStale, prefRowOf, hw]
    subst hwu
    exact (prefsUpsert_stale db.prefs w hws).1
  · intro mac secret now db req u hfalse
    rcases handleRate_prefs_cases mac secret now db req with hp | ⟨uid, hp⟩
    · simpa only [prefStale, prefRowOf, hp] using hfalse
    · simp only [prefStale, prefRowOf, hp] at hfalse ⊢
      exact (prefsUpsert_stale db.prefs
        { user_id := uid, vector_stale := some true,
          updated_at := some now } rfl).2 u hfalse
  · intro now today userId db body u hfalse
    obtain ⟨w, hw, _, hws⟩ := handlePreferencesPost_prefs now today userId db body
    simp only [prefStale, prefRowOf, hw] at hfalse ⊢
    exact (prefsUpsert_stale db.prefs w hws).2 u hfalse
  · intro now userId db body u hfalse
    rcases handleProfilePatch_prefs now userId db body with hp | ⟨w, hp, _, hws⟩
    · simpa only [prefStale, prefRowOf, hp] using hfalse
    · simp only [prefStale, prefRowOf, hp] at hfalse ⊢
      exact (prefsUpsert_stale db.prefs w hws).2 u hfalse
  · intro userId db p u
    simp only [prefStale, prefRowOf, handleRatingsDelete_prefs]
  · intro mac secret db email token u
    simp only [prefStale, prefRowOf, handleUnsubscribe_prefs]

/-- Witness for `vector_stale_set_on_rating_and_pref_edits`: a concrete
verified rate request flips the flag for the rated user. -/
theorem vector_stale_set_on_rating_and_pref_edits_witness :
    prefStale
      (handleRate (fun _ _ => List.replicate 32 (0 : Fin 256)) "sec" "now"
        { profiles := [{ id := "u1", email := "a@cornell.edu",
                         subscribed := true }],
          daily_menus := [{ id := "m1", dish_id := 7,
                            source_name := some "Tofu" }],
          ratings := [], nextRatingId := 1, prefs := [] }
        { email := "a@cornell.edu",
          token := "0000000000000000000000000000000000000000000000000000000000000000",
          menu_id := "m1", date := "2026-02-01", rating := "up" }).2
      "u1" = some true :=
  vector_stale_set_on_rating_and_pref_edits.1
    (fun _ _ => List.replicate 32 (0 : Fin 256)) "sec" "now"
    { profiles := [{ id := "u1", email := "a@cornell.edu",
                     subscribed := true }],
      daily_menus := [{ id := "m1", dish_id := 7,
                        source_name := some "Tofu" }],
      ratings := [], nextRatingId := 1, prefs := [] }
    { email := "a@cornell.edu",
      token := "0000000000000000000000000000000000000000000000000000000000000000",
      menu_id := "m1", date := "2026-02-01", rating := "up" }
    { id := "u1", email := "a@cornell.edu", subscribed := true }
    { id := "m1", dish_id := 7, source_name := some "Tofu" }
    (by decide) (by decide) (by decide) (by decide) (Or.inl rfl)
    (by decide) (by decide) (by decide)

/-- C2: the ratings store holds at most one row per (user, dish, menu_date)
triple — every upsert (both write paths use the conflict key
`user_id,dish_id,menu_date`) preserves the uniqueness invariant; when the
triple already exists the upsert overwrites that row instead of adding a
second one; rows of other triples are untouched; and the only other path
touching stored ratings, the DELETE endpoint, never rewrites a row (its
output rows all existed before). -/
theorem ratings_one_per_triple (rows : List RatingRow) (nextId : Nat)
    (w : RatingWrite) (h : tripleUnique rows) :
    tripleUnique (ratingsUpsert rows nextId w).1 ∧
    (rows.any (sameTriple · w) = true →
      (ratingsUpsert rows nextId w).1.length = rows.length ∧
      ∀ q ∈ (ratingsUpsert rows nextId w).1, sameTriple q w = true →
        q.rating = w.rating) ∧
    ((ratingsUpsert rows nextId w).1.filter (fun q => !(sameTriple q w))
      = rows.filter (fun q => !(sameTriple q w))) ∧
    (∀ (userId : String) (db : DB) (p : Option Int),
      ∀ q ∈ (handleRatingsDelete userId db p).2.ratings, q ∈ db.ratings) := by
  refine ⟨?_, ?_, ?_, ?_⟩
  · unfold ratingsUpsert
    split
    · unfold tripleUnique at h ⊢
      refine List.Pairwise.map _ (fun a b hab => ?_) h
      simpa [ratingUpdate_user_id, ratingUpdate_dish_id,
        ratingUpdate_menu_date] using hab
    case isFalse hany =>
      unfold tripleUnique at h ⊢
      rw [List.pairwise_append]
      refine ⟨h, by simp, fun a ha b hb => ?_⟩
      simp only [List.mem_singleton] at hb
      subst hb
      have : sameTriple a w = false := by
        by_contra hc
        exact hany (List.any_eq_true.mpr ⟨a, ha, by simpa using hc⟩)
      simp only [sameTriple, Bool.and_eq_false_iff, beq_eq_false_iff_ne,
        ne_eq] at this
      simp only [newRatingRow]
      tauto
  · intro hany
    unfold ratingsUpsert
    rw [if_pos hany]
    refine ⟨by simp, fun q hq hsq => ?_⟩
    simp only [List.mem_map] at hq
    obtain ⟨q₀, _, rfl⟩ := hq
    rw [sameTriple_ratingUpdate] at hsq
    simp [ratingUpdate, hsq]
  · unfold ratingsUpsert
    split
    · rw [List.filter_map]
      have hfe : ∀ q, ((fun q => !(sameTriple q w)) ∘ ratingUpdate w) q
          = (fun q => !(sameTriple q w)) q := by
        intro q; simp [Function.comp, sameTriple_ratingUpdate]
      rw [funext hfe]
      rw [List.map_congr_left fun q hq => ?_, List.map_id]
      have : sameTriple q w = false := by
        simpa using (List.mem_filter.mp hq).2
      simp [ratingUpdate, this]
    · rw [List.filter_append]
      simp [sameTriple_newRatingRow]
  · intro userId db p q hq
    unfold handleRatingsDelete at hq
    rcases p with _ | rid
    · exact hq
    · simp only at hq
      split at hq
      · exact hq
      · split at hq
        · exact hq
        · split at hq
          · exact hq
          · exact (List.mem_filter.mp hq).1

/-- Witness for `ratings_one_per_triple`: a two-row store with distinct
triples, overwritten on the first triple. -/
theorem ratings_one_per_triple_witness :
    tripleUnique
      (ratingsUpsert
        [{ id := 1, user_id := "u1", dish_id := 3, rating := 1, strength := 1,
           menu_date := "2026-01-01" },
         { id := 2, user_id := "u1", dish_id := 4, rating := -1, strength := 1,
           menu_date := "2026-01-01" }] 3
        { user_id := "u1", dish_id := 3, rating := -1, strength := none,
          menu_date := "2026-01-01" }).1 :=
  (ratings_one_per_triple _ 3 _
    (by unfold tripleUnique; simp [List.pairwise_cons])).1

/-- C7: the Preference Vector Builder (modelled from the spec) computes,
coordinate by coordinate, `base + Σ_i direction_i × strength_i × 0.95^i ×
embedding_i` with `i` the zero-based recency rank, and on the spec's toy
scenario — ratings (dish A, +1, strength 1.0) then (dish B, -1, strength
0.5), embeddings A = [1,0], B = [0,1], no initial-ingredient signal — it
yields [1, -0.475]. -/
theorem preference_vector_builder_formula (ratings : List BuilderRating)
    (base : List ℚ) (hlen : ∀ r ∈ ratings, r.emb.length = base.length) :
    prefVector ratings base = prefVectorSpec ratings base ∧
    prefVector [{ dir := 1, strength := 1, emb := [1, 0] },
                { dir := -1, strength := 1/2, emb := [0, 1] }] [0, 0]
      = [1, -0.475] := by
  constructor
  · unfold prefVector prefVectorSpec
    rw [prefVectorAux_eq ratings 0 base hlen]
    apply List.map_congr_left
    intro j _
    congr 1
    exact Finset.sum_congr rfl fun k _ => by rw [Nat.zero_add]
  · norm_num [prefVector, prefVectorAux, vecAdd, ratingContrib, vecScale,
      decay]

/-- Witness for `preference_vector_builder_formula` on the spec scenario. -/
theorem preference_vector_builder_formula_witness :
    prefVector [{ dir := 1, strength := 1, emb := [1, 0] },
                { dir := -1, strength := 1/2, emb := [0, 1] }] [0, 0]
      = prefVectorSpec
          [{ dir := 1, strength := 1, emb := [1, 0] },
           { dir := -1, strength := 1/2, emb := [0, 1] }] [0, 0] ∧
    prefVector [{ dir := 1, strength := 1, emb := [1, 0] },
                { dir := -1, strength := 1/2, emb := [0, 1] }] [0, 0]
      = [1, -0.475] :=
  preference_vector_builder_formula
    [{ dir := 1, strength := 1, emb := [1, 0] },
     { dir := -1, strength := 1/2, emb := [0, 1] }] [0, 0]
    (by decide)

/-- C8: hybrid-score weight selection is a pure function of the rating
count `n`: (0.40, 0.20, 0.15, 0.25) for n in 0–14, (0.60, 0.13, 0.09, 0.18)
for n in 15–39, (0.75, 0.08, 0.07, 0.10) for n ≥ 40; in particular n = 14
selects the cold-start row and n = 15 the mid row. -/
theorem hybrid_weight_selection (n : Nat) :
    (n ≤ 14 → hybridWeights n = (0.40, 0.20, 0.15, 0.25)) ∧
    (15 ≤ n → n ≤ 39 → hybridWeights n = (0.60, 0.13, 0.09, 0.18)) ∧
    (40 ≤ n → hybridWeights n = (0.75, 0.08, 0.07, 0.10)) ∧
    hybridWeights 14 = (0.40, 0.20, 0.15, 0.25) ∧
    hybridWeights 15 = (0.60, 0.13, 0.09, 0.18) := by
  refine ⟨fun h => ?_, fun h h' => ?_, fun h => ?_, ?_, ?_⟩
  · simp [hybridWeights, h]
  · simp [hybridWeights, if_neg (by omega : ¬ n ≤ 14), if_pos h']
  · simp [hybridWeights, if_neg (by omega : ¬ n ≤ 14), if_neg (by omega : ¬ n ≤ 39)]
  · norm_num [hybridWeights]
  · norm_num [hybridWeights]

/-- Witness for `hybrid_weight_selection` at n = 20. -/
theorem hybrid_weight_selection_witness :
    hybridWeights 20 = (0.60, 0.13, 0.09, 0.18) :=
  (hybrid_weight_selection 20).2.1 (by norm_num) (by norm_num)

/-- C9: a dish with empty `dietary_attrs` is eligible for every set of
restrictions; a dish is ineligible exactly when `dietary_attrs` is
non-empty and contains a tag that contradicts one of the user's
restrictions (for any contradiction table `contra`). The spec's scenario:
attrs {contains-dairy} is filtered for restriction {vegan} and not for
{gluten-free}. -/
theorem dietary_filter_empty_attrs_eligible
    (contra : String → String → Bool) (restrictions attrs : List String) :
    (attrs = [] → dietaryEligible contra restrictions attrs = true) ∧
    (dietaryEligible contra restrictions attrs = false ↔
      attrs ≠ [] ∧ ∃ a ∈ attrs, ∃ r ∈ restrictions, contra r a = true) ∧
    dietaryEligible exampleContra ["vegan"] ["contains-dairy"] = false ∧
    dietaryEligible exampleContra ["gluten-free"] ["contains-dairy"] = true := by
  refine ⟨fun h => by simp [h, dietaryEligible], ?_, by decide, by decide⟩
  simp [dietaryEligible, List.isEmpty_iff, List.any_eq_true]

/-- Witness for `dietary_filter_empty_attrs_eligible`: empty attrs pass
with a non-empty restriction set. -/
theorem dietary_filter_empty_attrs_eligible_witness :
    dietaryEligible exampleContra ["vegan"] [] = true :=
  (dietary_filter_empty_attrs_eligible exampleContra ["vegan"] []).1 rfl

/-- C4: the rate endpoint stores +1 exactly when the rating parameter is
"up" and -1 exactly when it is "down"; for any other rating value, a
missing email/token/menu_id/date parameter, or a token failing HMAC
verification, it returns an error redirect with the whole store (ratings
and user_preferences included) unchanged. -/
theorem rate_direction_and_error_writes_nothing :
    (∀ (mac : String → String → List (Fin 256)) (secret now : String)
       (db : DB) (req : RateRequest),
      (normalizeEmail req.email = "" ∨ req.token = "" ∨ req.menu_id = "" ∨
        req.date = "" ∨ (req.rating ≠ "up" ∧ req.rating ≠ "down")) →
      handleRate mac secret now db req
        = (.errorRedirect "Invalid rating link", db)) ∧
    (∀ (mac : String → String → List (Fin 256)) (secret now : String)
       (db : DB) (req : RateRequest),
      normalizeEmail req.email ≠ "" → req.token ≠ "" → req.menu_id ≠ "" →
      req.date ≠ "" → (req.rating = "up" ∨ req.rating = "down") →
      hmacVerify mac secret (normalizeEmail req.email) req.token = false →
      handleRate mac secret now db req
        = (.errorRedirect "Invalid or tampered token", db)) ∧
    (∀ (mac : String → String → List (Fin 256)) (secret now : String)
       (db : DB) (req : RateRequest) (prof : ProfileRow) (entry : MenuRow)
       (st dish : String) (db' : DB),
      db.profiles.find? (fun p => p.email == normalizeEmail req.email)
        = some prof →
      db.daily_menus.find? (fun m => m.id == req.menu_id) = some entry →
      handleRate mac secret now db req = (.success st dish, db') →
      (req.rating = "up" ∨ req.rating = "down") ∧
      ∃ q ∈ db'.ratings,
        q.user_id = prof.id ∧ q.dish_id = entry.dish_id ∧
        q.menu_date = req.date ∧
        (q.rating = 1 ↔ req.rating = "up") ∧
        (q.rating = -1 ↔ req.rating = "down")) := by
  refine ⟨fun mac secret now db req hbad => ?_,
    fun mac secret now db req he ht hm hd hr hv => ?_,
    fun mac secret now db req prof entry st dish db' hprof hentry hrun => ?_⟩
  · unfold handleRate
    dsimp only
    have hcond : (normalizeEmail req.email == "" || req.token == ""
        || req.menu_id == "" || req.date == ""
        || !(["up", "down"].contains req.rating)) = true := by
      rcases hbad with h | h | h | h | ⟨h1, h2⟩
      · simp [h]
      · simp [h]
      · simp [h]
      · simp [h]
      · have hcf : (["up", "down"].contains req.rating) = false := by
          simp [h1, h2]
        simp [hcf]
        exact Or.inr ⟨h1, h2⟩
    rw [if_pos hcond]
  · unfold handleRate
    dsimp only
    rw [if_neg (by
      simp only [Bool.or_eq_true, beq_iff_eq, Bool.not_eq_true', not_or]
      simp [he, ht, hm, hd]
      exact fun h => hr.resolve_left h)]
    rw [if_pos (by simp [hv])]
  · unfold handleRate at hrun
    dsimp only at hrun
    by_cases hc1 : (normalizeEmail req.email == "" || req.token == ""
        || req.menu_id == "" || req.date == ""
        || !(["up", "down"].contains req.rating)) = true
    · rw [if_pos hc1] at hrun
      cases hrun
    rw [if_neg hc1] at hrun
    have hr : req.rating = "up" ∨ req.rating = "down" := by
      by_contra hcon
      push_neg at hcon
      apply hc1
      have hcf : (["up", "down"].contains req.rating) = false := by
        simp [hcon.1, hcon.2]
      simp [hcf]
      exact Or.inr hcon
    by_cases hc2 : (!(hmacVerify mac secret (normalizeEmail req.email)
        req.token)) = true
    · rw [if_pos hc2] at hrun
      cases hrun
    rw [if_neg hc2] at hrun
    rw [hprof, hentry] at hrun
    dsimp only at hrun
    have hdb' : db' = { db with
        ratings := (ratingsUpsert db.ratings db.nextRatingId
          { user_id := prof.id, dish_id := entry.dish_id,
            rating := if req.rating == "up" then 1 else -1,
            strength := none, menu_date := req.date }).1,
        nextRatingId := (ratingsUpsert db.ratings db.nextRatingId
          { user_id := prof.id, dish_id := entry.dish_id,
            rating := if req.rating == "up" then 1 else -1,
            strength := none, menu_date := req.date }).2,
        prefs := prefsUpsert db.prefs
          { user_id := prof.id, vector_stale := some true,
            updated_at := some now } } := by
      cases hrun
      rfl
    refine ⟨hr, ?_⟩
    obtain ⟨q, hq, hqs, hqr⟩ := ratingsUpsert_mem db.ratings db.nextRatingId
      { user_id := prof.id, dish_id := entry.dish_id,
        rating := if req.rating == "up" then 1 else -1,
        strength := none, menu_date := req.date }
    refine ⟨q, by rw [hdb']; exact hq, ?_, ?_, ?_, ?_, ?_⟩ <;>
      simp only [sameTriple, Bool.and_eq_true, beq_iff_eq] at hqs
    · exact hqs.1.1
    · exact hqs.1.2
    · exact hqs.2
    · rcases hr with h | h <;> rw [h] at hqr <;> simp at hqr <;>
        simp [hqr, h]
    · rcases hr with h | h <;> rw [h] at hqr <;> simp at hqr <;>
        simp [hqr, h]

/-- Witness for `rate_direction_and_error_writes_nothing`: a request with
an unknown rating parameter is rejected and the store is untouched. -/
theorem rate_direction_and_error_writes_nothing_witness :
    handleRate (fun _ _ => List.replicate 32 (0 : Fin 256)) "sec" "now"
      { profiles := [], daily_menus := [], ratings := [], nextRatingId := 1,
        prefs := [] }
      { email := "a@cornell.edu", token := "t", menu_id := "m1",
        date := "2026-02-01", rating := "sideways" }
      = (.errorRedirect "Invalid rating link",
         { profiles := [], daily_menus := [], ratings := [],
           nextRatingId := 1, prefs := [] }) :=
  rate_direction_and_error_writes_nothing.1
    (fun _ _ => List.replicate 32 (0 : Fin 256)) "sec" "now"
    { profiles := [], daily_menus := [], ratings := [], nextRatingId := 1,
      prefs := [] }
    { email := "a@cornell.edu", token := "t", menu_id := "m1",
      date := "2026-02-01", rating := "sideways" }
    (Or.inr (Or.inr (Or.inr (Or.inr (by decide)))))

/-- C5: for a user who already has a `user_preferences` row, a successful
rate request changes only `vector_stale` and `updated_at` of that row —
the weight maps, `initial_ingredients`, `dietary_restrictions` and
`preference_vector` keep their values — and the rows of all other users
are untouched; moreover no endpoint of the codebase ever writes
`preference_vector` (its value per user is invariant under every
operation). -/
theorem rate_event_changes_only_staleness :
    (∀ (mac : String → String → List (Fin 256)) (secret now : String)
       (db : DB) (req : RateRequest) (prof : ProfileRow) (row : PrefRow)
       (st dish : String) (db' : DB),
      db.profiles.find? (fun p => p.email == normalizeEmail req.email)
        = some prof →
      prefRowOf db prof.id = some row →
      handleRate mac secret now db req = (.success st dish, db') →
      (∃ row', prefRowOf db' prof.id = some row' ∧
        row'.cuisine_weights = row.cuisine_weights ∧
        row'.flavor_weights = row.flavor_weights ∧
        row'.method_weights = row.method_weights ∧
        row'.initial_ingredients = row.initial_ingredients ∧
        row'.dietary_restrictions = row.dietary_restrictions ∧
        row'.preference_vector = row.preference_vector ∧
        row'.vector_stale = true ∧ row'.updated_at = now) ∧
      (∀ u, u ≠ prof.id → prefRowOf db' u = prefRowOf db u)) ∧
    (∀ (mac : String → String → List (Fin 256)) (secret now : String)
       (db : DB) (req : RateRequest) (u : String),
      prefVecOf (handleRate mac secret now db req).2 u = prefVecOf db u) ∧
    (∀ (now today userId : String) (db : DB) (body : PrefPostBody)
       (u : String),
      prefVecOf (handlePreferencesPost now today userId db body) u
        = prefVecOf db u) ∧
    (∀ (now userId : String) (db : DB) (body : ProfilePatchBody)
       (u : String),
      prefVecOf (handleProfilePatch now userId db body) u = prefVecOf db u) ∧
    (∀ (userId : String) (db : DB) (p : Option Int) (u : String),
      prefVecOf (handleRatingsDelete userId db p).2 u = prefVecOf db u) ∧
    (∀ (mac : String → String → List (Fin 256)) (secret : String) (db : DB)
       (email token u : String),
      prefVecOf (handleUnsubscribe mac secret db email token) u
        = prefVecOf db u) := by
  refine ⟨?_, ?_, ?_, ?_, ?_, ?_⟩
  · intro mac secret now db req prof row st dish db' hprof hrow hrun
    unfold handleRate at hrun
    dsimp only at hrun
    by_cases hc1 : (normalizeEmail req.email == "" || req.token == ""
        || req.menu_id == "" || req.date == ""
        || !(["up", "down"].contains req.rating)) = true
    · rw [if_pos hc1] at hrun
      cases hrun
    rw [if_neg hc1] at hrun
    by_cases hc2 : (!(hmacVerify mac secret (normalizeEmail req.email)
        req.token)) = true
    · rw [if_pos hc2] at hrun
      cases hrun
    rw [if_neg hc2] at hrun
    rw [hprof] at hrun
    dsimp only at hrun
    cases hentry : db.daily_menus.find? (fun m => m.id == req.menu_id) with
    | none =>
      rw [hentry] at hrun
      cases hrun
    | some entry =>
      rw [hentry] at hrun
      dsimp only at hrun
      have hdb' : db'.prefs = prefsUpsert db.prefs
          { user_id := prof.id, vector_stale := some true,
            updated_at := some now } := by
        cases hrun
        rfl
      constructor
      · refine ⟨applyPrefWrite row
          { user_id := prof.id, vector_stale := some true,
            updated_at := some now }, ?_, rfl, rfl, rfl, rfl, rfl, rfl,
          rfl, rfl⟩
        have h1 := prefsUpsert_find_self db.prefs
          { user_id := prof.id, vector_stale := some true,
            updated_at := some now }
        dsimp only at h1
        simp only [prefRowOf] at hrow
        rw [hrow] at h1
        simp only [Option.elim] at h1
        simp only [prefRowOf, hdb']
        exact h1
      · intro u hu
        simp only [prefRowOf, hdb']
        exact prefsUpsert_find_other db.prefs _ u hu
  · intro mac secret now db req u
    rcases handleRate_prefs_cases mac secret now db req with hp | ⟨uid, hp⟩
    · simp only [prefVecOf, prefRowOf, hp]
    · simp only [prefVecOf, prefRowOf, hp]
      exact prefsUpsert_vec db.prefs _ u
  · intro now today userId db body u
    obtain ⟨w, hw, _, _⟩ :=
      handlePreferencesPost_prefs now today userId db body
    simp only [prefVecOf, prefRowOf, hw]
    exact prefsUpsert_vec db.prefs w u
  · intro now userId db body u
    rcases handleProfilePatch_prefs now userId db body with hp | ⟨w, hp, _, _⟩
    · simp only [prefVecOf, prefRowOf, hp]
    · simp only [prefVecOf, prefRowOf, hp]
      exact prefsUpsert_vec db.prefs w u
  · intro userId db p u
    simp only [prefVecOf, prefRowOf, handleRatingsDelete_prefs]
  · intro mac secret db email token u
    simp only [prefVecOf, prefRowOf, handleUnsubscribe_prefs]

/-- Witness for `rate_event_changes_only_staleness`: a concrete rate
request against a user whose row holds weights and a cached vector. -/
theorem rate_event_changes_only_staleness_witness :
    (∃ row', prefRowOf
        (handleRate (fun _ _ => List.replicate 32 (0 : Fin 256)) "sec" "now"
          { profiles := [{ id := "u1", email := "a@cornell.edu",
                           subscribed := true }],
            daily_menus := [{ id := "m1", dish_id := 7,
                              source_name := some "Tofu" }],
            ratings := [], nextRatingId := 1,
            prefs := [{ user_id := "u1",
                        cuisine_weights := [("chinese", 1)],
                        flavor_weights := [], method_weights := [],
                        initial_ingredients := [],
                        dietary_restrictions := [],
                        preference_vector := some [1],
                        vector_stale := false, updated_at := "t0" }] }
          { email := "a@cornell.edu",
            token := "0000000000000000000000000000000000000000000000000000000000000000",
            menu_id := "m1", date := "2026-02-01", rating := "up" }).2
        "u1" = some row' ∧
      row'.cuisine_weights = [("chinese", 1)] ∧
      row'.flavor_weights = ([] : List (String × ℚ)) ∧
      row'.method_weights = ([] : List (String × ℚ)) ∧
      row'.initial_ingredients = ([] : List String) ∧
      row'.dietary_restrictions = ([] : List String) ∧
      row'.preference_vector = some [1] ∧
      row'.vector_stale = true ∧ row'.updated_at = "now") ∧
    (∀ u, u ≠ "u1" → prefRowOf
        (handleRate (fun _ _ => List.replicate 32 (0 : Fin 256)) "sec" "now"
          { profiles := [{ id := "u1", email := "a@cornell.edu",
                           subscribed := true }],
            daily_menus := [{ id := "m1", dish_id := 7,
                              source_name := some "Tofu" }],
            ratings := [], nextRatingId := 1,
            prefs := [{ user_id := "u1",
                        cuisine_weights := [("chinese", 1)],
                        flavor_weights := [], method_weights := [],
                        initial_ingredients := [],
                        dietary_restrictions := [],
                        preference_vector := some [1],
                        vector_stale := false, updated_at := "t0" }] }
          { email := "a@cornell.edu",
            token := "0000000000000000000000000000000000000000000000000000000000000000",
            menu_id := "m1", date := "2026-02-01", rating := "up" }).2 u
      = prefRowOf
          { profiles := [{ id := "u1", email := "a@cornell.edu",
                           subscribed := true }],
            daily_menus := [{ id := "m1", dish_id := 7,
                              source_name := some "Tofu" }],
            ratings := [], nextRatingId := 1,
            prefs := [{ user_id := "u1",
                        cuisine_weights := [("chinese", 1)],
                        flavor_weights := [], method_weights := [],
                        initial_ingredients := [],
                        dietary_restrictions := [],
                        preference_vector := some [1],
                        vector_stale := false, updated_at := "t0" }] } u) :=
  rate_event_changes_only_staleness.1
    (fun _ _ => List.replicate 32 (0 : Fin 256)) "sec" "now"
    { profiles := [{ id := "u1", email := "a@cornell.edu",
                     subscribed := true }],
      daily_menus := [{ id := "m1", dish_id := 7,
                        source_name := some "Tofu" }],
      ratings := [], nextRatingId := 1,
      prefs := [{ user_id := "u1", cuisine_weights := [("chinese", 1)],
                  flavor_weights := [], method_weights := [],
                  initial_ingredients := [], dietary_restrictions := [],
                  preference_vector := some [1], vector_stale := false,
                  updated_at := "t0" }] }
    { email := "a@cornell.edu",
      token := "0000000000000000000000000000000000000000000000000000000000000000",
      menu_id := "m1", date := "2026-02-01", rating := "up" }
    { id := "u1", email := "a@cornell.edu", subscribed := true }
    { user_id := "u1", cuisine_weights := [("chinese", 1)],
      flavor_weights := [], method_weights := [],
      initial_ingredients := [], dietary_restrictions := [],
      preference_vector := some [1], vector_stale := false,
      updated_at := "t0" }
    "liked" "Tofu" _ (by decide) (by decide) (by decide)

/-- C6: the DELETE branch of the ratings endpoint removes a rating only
when the caller owns it: an unknown id yields 404, a rating of another
user yields 403, and in both cases the whole store is unchanged; when the
caller owns the rating, the result is ok, the store keeps exactly the rows
with a different id, and (ids being a primary key) exactly one row is
removed. -/
theorem ratings_delete_requires_ownership (userId : String) (db : DB)
    (rid : Int) (hrid : rid ≠ 0) :
    (db.ratings.find? (fun q => (q.id : Int) == rid) = none →
      handleRatingsDelete userId db (some rid) = (.notFound, db)) ∧
    (∀ q, db.ratings.find? (fun q' => (q'.id : Int) == rid) = some q →
      q.user_id ≠ userId →
      handleRatingsDelete userId db (some rid) = (.forbidden, db)) ∧
    (∀ q, db.ratings.find? (fun q' => (q'.id : Int) == rid) = some q →
      q.user_id = userId →
      (handleRatingsDelete userId db (some rid)).1 = .ok ∧
      (handleRatingsDelete userId db (some rid)).2.ratings
        = db.ratings.filter (fun q' => (q'.id : Int) != rid) ∧
      (idUnique db.ratings →
        (handleRatingsDelete userId db (some rid)).2.ratings.length + 1
          = db.ratings.length)) := by
  refine ⟨fun hnone => ?_, fun q hfind hne => ?_, fun q hfind howner => ?_⟩
  · dsimp only [handleRatingsDelete]
    rw [if_neg (by simp [hrid]), hnone]
  · dsimp only [handleRatingsDelete]
    rw [if_neg (by simp [hrid]), hfind]
    dsimp only
    rw [if_pos (by simp [hne])]
  · dsimp only [handleRatingsDelete]
    rw [if_neg (by simp [hrid]), hfind]
    dsimp only
    rw [if_neg (by simp [howner])]
    refine ⟨rfl, rfl, fun hnd => ?_⟩
    have hq : q ∈ db.ratings := List.mem_of_find?_eq_some hfind
    have hqid := List.find?_some hfind
    have h1 : (db.ratings.filter fun q' => (q'.id : Int) == rid).length = 1 :=
      filter_id_eq_singleton db.ratings rid hnd q hq (by simpa using hqid)
    have := length_filter_id_split db.ratings rid
    simpa [h1] using this

/-- Witness for `ratings_delete_requires_ownership`: deleting the only
rating, owned by the caller, empties the store. -/
theorem ratings_delete_requires_ownership_witness :
    (handleRatingsDelete "u1"
      { profiles := [], daily_menus := [],
        ratings := [{ id := 5, user_id := "u1", dish_id := 9, rating := 1,
                      strength := 1, menu_date := "2026-02-01" }],
        nextRatingId := 6, prefs := [] } (some 5)).1 = .ok ∧
    (handleRatingsDelete "u1"
      { profiles := [], daily_menus := [],
        ratings := [{ id := 5, user_id := "u1", dish_id := 9, rating := 1,
                      strength := 1, menu_date := "2026-02-01" }],
        nextRatingId := 6, prefs := [] } (some 5)).2.ratings
      = ([] : List RatingRow) := by
  have h := (ratings_delete_requires_ownership "u1"
    { profiles := [], daily_menus := [],
      ratings := [{ id := 5, user_id := "u1", dish_id := 9, rating := 1,
                    strength := 1, menu_date := "2026-02-01" }],
      nextRatingId := 6, prefs := [] } 5 (by decide)).2.2
    { id := 5, user_id := "u1", dish_id := 9, rating := 1,
      strength := 1, menu_date := "2026-02-01" } (by decide) rfl
  exact ⟨h.1, h.2.1.trans (by decide)⟩

/-- C10: for every secret and data string, verification accepts the
signature itself (`hmacVerify (hmacSign) = true`); the signature is a
64-character lowercase-hex string; every token of a different length is
rejected; and a token is accepted exactly when it equals the signature.
The raw 32-byte HMAC-SHA256 output is the abstract `mac` collaborator. -/
theorem hmac_verify_accepts_only_signature
    (mac : String → String → List (Fin 256)) (secret data : String)
    (hlen : (mac secret data).length = 32) :
    hmacVerify mac secret data (hmacSign mac secret data) = true ∧
    (hmacSign mac secret data).length = 64 ∧
    (∀ c ∈ (hmacSign mac secret data).toList, c ∈ "0123456789abcdef".toList) ∧
    (∀ token : String, token.length ≠ 64 →
      hmacVerify mac secret data token = false) ∧
    (∀ token : String, hmacVerify mac secret data token = true ↔
      token = hmacSign mac secret data) := by
  have hsl : (hmacSign mac secret data).length = 64 := by
    rw [hmacSign_length, hlen]
  have hver : ∀ token : String, hmacVerify mac secret data token = true ↔
      token = hmacSign mac secret data := by
    intro token
    unfold hmacVerify
    by_cases hl : (hmacSign mac secret data).length = token.length
    · rw [if_neg (by simp [hl])]
      rw [beq_iff_eq,
        xorDiff_eq_zero _ _
          (show (hmacSign mac secret data).toList.length = token.toList.length
            from hl)]
      rw [String.toList_inj]
      exact eq_comm
    · rw [if_pos (by simpa using hl)]
      constructor
      · intro h
        exact absurd h (by simp)
      · intro h
        exact absurd (by rw [h] : (hmacSign mac secret data).length = token.length) hl
  refine ⟨(hver _).mpr rfl, hsl, ?_, fun token htok => ?_, hver⟩
  · intro c hc
    rw [hmacSign_toList] at hc
    obtain ⟨b, _, hb⟩ := List.mem_flatMap.mp hc
    have hbl := b.isLt
    have h16a : b.val / 16 < 16 := by omega
    have h16b : b.val % 16 < 16 := by omega
    rcases List.mem_cons.mp hb with rfl | hb'
    · exact hexDigit_mem _ h16a
    · rcases List.mem_singleton.mp hb' with rfl
      exact hexDigit_mem _ h16b
  · have : hmacVerify mac secret data token ≠ true := fun h =>
      htok (by rw [(hver token).mp h]; exact hsl)
    simpa using this

/-- Witness for `hmac_verify_accepts_only_signature` with the all-zero MAC
collaborator: the signature verifies, a short token does not. -/
theorem hmac_verify_accepts_only_signature_witness :
    hmacVerify (fun _ _ => List.replicate 32 (0 : Fin 256)) "secret"
      "user@cornell.edu"
      (hmacSign (fun _ _ => List.replicate 32 (0 : Fin 256)) "secret"
        "user@cornell.edu") = true ∧
    hmacVerify (fun _ _ => List.replicate 32 (0 : Fin 256)) "secret"
      "user@cornell.edu" "tampered" = false :=
  ⟨(hmac_verify_accepts_only_signature _ "secret" "user@cornell.edu"
      (by simp)).1,
   (hmac_verify_accepts_only_signature _ "secret" "user@cornell.edu"
      (by simp)).2.2.2.1 "tampered" (by decide)⟩

end CMP
